import Mathlib

/-!
Verification of the `github-post` test-result correlator
(`pkg/cmd/github-post`, function `listFailures` and its helpers).

The Go source is shallowly embedded: `testEvent` becomes `TestEvent`,
Go maps become association lists, `float64` and `time.Time` become `Rat`
(seconds), the fatal exits (`panic`, `log.Fatal`, slice-index panic)
become the error arm of `Except GoErr`, and the external issue-posting
callback is modelled by collecting the would-be posted `FailureReport`
values in emission order.
-/

namespace GithubPost

/-- Embedding of the Go `testEvent` struct (test2json event).
`Time` is modelled as rational seconds since some epoch; `Elapsed` as
rational seconds. -/
structure TestEvent where
  Action : String
  Test : String
  Output : String
  Time : Rat
  Elapsed : Rat
deriving DecidableEq

/-- The zero value of `testEvent` in Go. -/
def defaultTestEvent : TestEvent := ⟨"", "", "", 0, 0⟩

/-- A Go `map[string][]testEvent`, modelled as an association list with
(at the call sites below) unique keys. -/
abbrev EventMap := List (String × List TestEvent)

/-- `m[k]` for a Go map: the entry's value, or the zero value `nil` when absent. -/
def mapGet (m : EventMap) (k : String) : List TestEvent :=
  match m.find? (fun p => p.1 == k) with
  | some p => p.2
  | none => []

/-- `_, ok := m[k]` for a Go map. -/
def mapHas (m : EventMap) (k : String) : Bool :=
  (m.find? (fun p => p.1 == k)).isSome

/-- `m[k] = v` for a Go map: replace in place, or add the entry. -/
def mapSet (m : EventMap) (k : String) (v : List TestEvent) : EventMap :=
  if mapHas m k then m.map (fun p => if p.1 == k then (k, v) else p)
  else m ++ [(k, v)]

/-- `m[k] = append(m[k], vs...)` for a Go map. -/
def mapAppend (m : EventMap) (k : String) (vs : List TestEvent) : EventMap :=
  mapSet m k (mapGet m k ++ vs)

/-- `delete(m, k)` for a Go map. -/
def mapErase (m : EventMap) (k : String) : EventMap :=
  m.filter (fun p => p.1 != k)

/-- Is `pre` a prefix of `l`? (used for `strings.Contains`/`strings.TrimPrefix`). -/
def listIsPrefix : List Char → List Char → Bool
  | [], _ => true
  | _ :: _, [] => false
  | a :: as, b :: bs => a == b && listIsPrefix as bs

/-- Does `needle` occur as a contiguous sublist of the haystack? -/
def listContains (needle : List Char) : List Char → Bool
  | [] => needle.isEmpty
  | c :: rest => listIsPrefix needle (c :: rest) || listContains needle rest

/-- `strings.Contains hay needle`. -/
def strContains (hay needle : String) : Bool :=
  listContains needle.data hay.data

/-- `strings.Contains s "/"`; also `len(strings.SplitN(s, "/", 2)) == 2`. -/
def hasSlash (s : String) : Bool := s.data.contains '/'

/-- The two pieces of `strings.SplitN(s, "/", 2)` when `s` contains a `/`:
everything before the first `/` and everything after it. -/
def splitFirstSlash : List Char → Option (List Char × List Char)
  | [] => none
  | c :: rest =>
    if c == '/' then some ([], rest)
    else (splitFirstSlash rest).map (fun p => (c :: p.1, p.2))

/-- `strings.TrimPrefix s pre`. -/
def trimPrefix (s pre : String) : String :=
  if listIsPrefix pre.data s.data then String.mk (s.data.drop pre.data.length) else s

/-- The `timeoutMsg` marker constant from `listFailures`. -/
def timeoutMsg : String := "panic: test timed out after"

/-- `shortTestFilterSecs` from `listFailures` (0.5 seconds). -/
def shortTestFilterSecs : Rat := 1 / 2

/-- An ASCII single quote, kept out of string literals. -/
def squote : String := String.singleton (Char.ofNat 39)

/-- The stress-preamble marker `-exec 'stress '` checked while `init` is true. -/
def stressMarker : String := "-exec " ++ squote ++ "stress " ++ squote

/-- The longest prefix of decimal digits, plus the rest. -/
def takeDigits : List Char → List Char × List Char
  | [] => ([], [])
  | c :: rest =>
    if c.isDigit then
      let p := takeDigits rest
      (c :: p.1, p.2)
    else ([], c :: rest)

/-- Numeric value of a digit string. -/
def digitsVal (ds : List Char) : Nat :=
  ds.foldl (fun a c => a * 10 + (c.toNat - 48)) 0

/-- `strconv.ParseFloat` restricted to the language `\d*(\.\d*)?` produced by
the timeout regexp's first capture group: fails exactly when the string holds
no digit (`""` or `"."`), otherwise the exact decimal value. -/
def parseFloatDec (s : List Char) : Option Rat :=
  let p := takeDigits s
  match p.2 with
  | [] => if p.1.isEmpty then none else some (digitsVal p.1)
  | '.' :: fr =>
    let q := takeDigits fr
    if q.2.isEmpty then
      if p.1.isEmpty && q.1.isEmpty then none
      else some ((digitsVal p.1 : Rat) + (digitsVal q.1 : Rat) / ((10 : Rat) ^ q.1.length))
    else none
  | _ => none

/-- The literal part of the regexp
`panic: test timed out after (\d*(?:\.\d*)?)(.)` (note the trailing space). -/
def timeoutPatternLit : List Char := "panic: test timed out after ".data

/-- Match `(\d*(?:\.\d*)?)(.)` at the start of `s` with the greedy,
backtracking (leftmost-first) semantics Go's regexp engine gives this
pattern; `(.)` matches any character except a newline (Go's `.` with the `s`
flag off).  Group 1 (returned first) is the numeric text, group 2 the unit
character; `none` when no backtracking choice places `(.)` on a
non-newline character. -/
def matchGroups (s : List Char) : Option (List Char × Char) :=
  let p := takeDigits s
  match p.2 with
  | '.' :: r2 =>
    let q := takeDigits r2
    match q.2 with
    | c :: _ =>
      if c = '\n' then
        match q.1.reverse with
        | [] => some (p.1, '.')
        | c2 :: rest => some (p.1 ++ '.' :: rest.reverse, c2)
      else some (p.1 ++ '.' :: q.1, c)
    | [] =>
      match q.1.reverse with
      | [] => some (p.1, '.')
      | c2 :: rest => some (p.1 ++ '.' :: rest.reverse, c2)
  | c :: _ =>
    if c = '\n' then
      match p.1.reverse with
      | [] => none
      | c2 :: rest => some (rest.reverse, c2)
    else some (p.1, c)
  | [] =>
    match p.1.reverse with
    | [] => none
    | c2 :: rest => some (rest.reverse, c2)

/-- Scan start positions left to right, as Go's engine does for a leftmost
match: at every occurrence of the pattern's literal part try the group part
on the remaining suffix, moving on to later occurrences when it fails
(e.g. because the suffix starts with a newline). -/
def scanTimeoutPattern : List Char → Option (List Char × Char)
  | [] => none
  | c :: rest =>
    if listIsPrefix timeoutPatternLit (c :: rest) then
      match matchGroups ((c :: rest).drop timeoutPatternLit.length) with
      | some r => some r
      | none => scanTimeoutPattern rest
    else scanTimeoutPattern rest

/-- `regexp.FindStringSubmatch` for the fixed pattern
`panic: test timed out after (\d*(?:\.\d*)?)(.)`: the two capture groups of
the leftmost match, or `none` when the pattern matches nowhere. -/
def findTimeoutMatch (output : String) : Option (List Char × Char) :=
  scanTimeoutPattern output.data

/-- The fatal exits of `listFailures`, surfaced as values:
`panic` on pass/skip after a recorded timeout, `log.Fatal` on an
unparseable magnitude, `log.Fatalf` on an unexpected time unit, and the
slice-index panic `slowFailingTests[0]` on an empty slice. -/
inductive GoErr where
  | passAfterTimeout
  | fatalParseFloat
  | fatalTimeUnit
  | sliceIndexPanic
deriving DecidableEq

/-- The untrusted-timestamps arm of the timeout branch (lines 1027–1044):
regexp match, `ParseFloat`, minutes-to-seconds conversion, and the
subtraction of `elapsedTotalSec`; a failed match yields the sentinel `-1`,
while a matched-but-unparseable magnitude or an unknown unit is fatal. -/
def reconcileUntrusted (output : String) (elapsedTotalSec : Rat) : Except GoErr Rat :=
  match findTimeoutMatch output with
  | none => .ok (-1)
  | some (g1, u) =>
    match parseFloatDec g1 with
    | none => .error .fatalParseFloat
    | some dur =>
      if u = 'm' then .ok (dur * 60 - elapsedTotalSec)
      else if u = 's' then .ok (dur - elapsedTotalSec)
      else .error .fatalTimeUnit

/-- The local state of `listFailures` (the Run State of the spec). -/
structure RunState where
  outstandingOutput : EventMap
  failures : EventMap
  slowPassingTests : List TestEvent
  slowFailingTests : List TestEvent
  packageOutput : String
  initFlag : Bool
  trustTimestamps : Bool
  elapsedTotalSec : Rat
  timedOutTestName : String
  timedOutEvent : TestEvent
  curTestStart : Rat
  lastTestName : String
  lastEvent : TestEvent
deriving DecidableEq

/-- The state at entry of the decode loop. -/
def initialState : RunState :=
  { outstandingOutput := []
    failures := []
    slowPassingTests := []
    slowFailingTests := []
    packageOutput := ""
    initFlag := true
    trustTimestamps := true
    elapsedTotalSec := 0
    timedOutTestName := ""
    timedOutEvent := defaultTestEvent
    curTestStart := 0
    lastTestName := ""
    lastEvent := defaultTestEvent }

/-- The statements of the decode loop that precede the `switch` (lines
975–988): record `lastEvent`, clear `init`, detect the stress marker, and
accumulate `elapsedTotalSec`. -/
def stepPre (s : RunState) (te : TestEvent) : RunState :=
  let s := { s with lastEvent := te }
  let s := if te.Test ≠ "" then { s with initFlag := false } else s
  let s := if s.initFlag = true ∧ strContains te.Output stressMarker = true then
    { s with trustTimestamps := false } else s
  if s.timedOutTestName = "" ∧ te.Elapsed > 0 ∧ hasSlash te.Test = false then
    { s with elapsedTotalSec := s.elapsedTotalSec + te.Elapsed }
  else s

/-- Lines 990–992: overwrite the event's `Elapsed` with the previously
reconciled timeout duration when this event belongs to the timed-out test. -/
def adjustElapsed (s : RunState) (te : TestEvent) : TestEvent :=
  if s.timedOutTestName = te.Test ∧ te.Elapsed ≠ 0 then
    { te with Elapsed := s.timedOutEvent.Elapsed }
  else te

/-- The `switch te.Action` of the decode loop (lines 994–1079), including the
package-output fall-through for events with an empty test name. -/
def stepSwitch (s : RunState) (te : TestEvent) : Except GoErr RunState :=
  if te.Test ≠ "" then
    if te.Action = "run" then
      let s := { s with lastTestName := te.Test }
      .ok (if s.trustTimestamps then { s with curTestStart := te.Time } else s)
    else if te.Action = "output" then
      let s := { s with outstandingOutput := mapAppend s.outstandingOutput te.Test [te] }
      if strContains te.Output timeoutMsg then
        let elapsedE : Except GoErr Rat :=
          if s.trustTimestamps then .ok (te.Time - s.curTestStart)
          else reconcileUntrusted te.Output s.elapsedTotalSec
        match elapsedE with
        | .error e => .error e
        | .ok el =>
          .ok { s with timedOutTestName := te.Test, timedOutEvent := { te with Elapsed := el } }
      else .ok s
    else if te.Action = "pass" ∨ te.Action = "skip" then
      if s.timedOutTestName ≠ "" then .error .passAfterTimeout
      else
        let s := { s with outstandingOutput := mapErase s.outstandingOutput te.Test }
        if te.Elapsed > shortTestFilterSecs ∧ hasSlash te.Test = false then
          .ok { s with slowPassingTests := s.slowPassingTests ++ [te] }
        else .ok s
    else if te.Action = "fail" then
      let s := if hasSlash te.Test = false ∨ s.timedOutTestName = te.Test then
        { s with slowFailingTests := s.slowFailingTests ++ [te] } else s
      let s := if s.timedOutTestName ≠ te.Test then
        { s with failures := mapSet s.failures te.Test (mapGet s.outstandingOutput te.Test) }
      else s
      .ok { s with outstandingOutput := mapErase s.outstandingOutput te.Test }
    else .ok s
  else if te.Action = "output" then
    .ok { s with packageOutput := s.packageOutput ++ te.Output }
  else .ok s

/-- One iteration of the decode loop on a decoded event. -/
def processEvent (s : RunState) (te : TestEvent) : Except GoErr RunState :=
  let s := stepPre s te
  stepSwitch s (adjustElapsed s te)

/-- The whole decode loop over a finite event stream. -/
def processEvents (events : List TestEvent) (s : RunState) : Except GoErr RunState :=
  match events with
  | [] => .ok s
  | te :: rest =>
    match processEvent s te with
    | .error e => .error e
    | .ok s2 => processEvents rest s2

/-- End-of-stream reconciliation (lines 1089–1103): synthesize a failing
slow-test entry for a still-outstanding timed-out test, or treat a
still-outstanding last test as failed. -/
def endOfStream (s : RunState) : RunState :=
  if s.timedOutTestName ≠ "" then
    if mapHas s.outstandingOutput s.timedOutTestName then
      { s with slowFailingTests := s.slowFailingTests ++ [s.timedOutEvent],
               outstandingOutput := mapErase s.outstandingOutput s.timedOutTestName }
    else s
  else
    if mapHas s.outstandingOutput s.lastTestName then
      { s with failures := mapSet s.failures s.lastTestName (mapGet s.outstandingOutput s.lastTestName) }
    else s

/-- One step of the subtest-consolidation loop (lines 1118–1127): a failure
entry whose test name contains a `/` has its events appended to the parent
test's entry and is removed; top-level entries are left alone. -/
def consolidateStep (m : EventMap) (p : String × List TestEvent) : EventMap :=
  match splitFirstSlash p.1.data with
  | some q => mapErase (mapAppend m (String.mk q.1) p.2) p.1
  | none => m

/-- The subtest-consolidation pass: iterate over a snapshot of the failure
map's entries, folding each subtest entry into its parent.  (Go iterates the
live map; as argued in the lemmas below, only entries made of the snapshot
are visited with their snapshot values, top-level entries are no-ops, so the
snapshot fold is the same function up to map iteration order.) -/
def consolidate (m : EventMap) : EventMap :=
  m.foldl consolidateStep m

/-- Insert into a descending-by-`Elapsed` list, per the `sort.Slice`
comparator `Elapsed i > Elapsed j`. -/
def insertDesc (te : TestEvent) : List TestEvent → List TestEvent
  | [] => [te]
  | x :: xs => if te.Elapsed > x.Elapsed then te :: x :: xs else x :: insertDesc te xs

/-- `sort.Slice(l, func(i, j) { return l[i].Elapsed > l[j].Elapsed })`:
sorting descending by `Elapsed` (modulo order among equal durations,
which `sort.Slice` leaves unspecified). -/
def sortSlowDesc (l : List TestEvent) : List TestEvent :=
  l.foldr insertDesc []

/-- Insertion into an ascending sorted list of strings. -/
def insertStr (s : String) : List String → List String
  | [] => [s]
  | x :: xs => if s < x then s :: x :: xs else x :: insertStr s xs

/-- `sort.Strings`. -/
def sortStrings (l : List String) : List String :=
  l.foldr insertStr []

/-- Decimal rendering of `n/100` with two fractional digits. -/
def natF2 (n : Nat) : String :=
  toString (n / 100) ++ "." ++ (if n % 100 < 10 then "0" else "") ++ toString (n % 100)

/-- `fmt.Sprintf("%.2f", q)`: round to two decimal places (half away from
zero — exact decimal ties, which a binary float almost never produces, are
immaterial to the claims below) and render. -/
def fmtF2 (q : Rat) : String :=
  if q < 0 then "-" ++ natF2 (Int.toNat (-q * 100 + 1 / 2).floor)
  else natF2 (Int.toNat (q * 100 + 1 / 2).floor)

/-- One slow-test line `"%s - %.2fs\n"`. -/
def slowLine (te : TestEvent) : String :=
  te.Test ++ " - " ++ fmtF2 te.Elapsed ++ "s\n"

/-- The section loop of `genSlowTestsReport`: print entries, breaking at
index 20. -/
def slowLines (i : Nat) : List TestEvent → String
  | [] => ""
  | te :: rest => if i = 20 then "" else slowLine te ++ slowLines (i + 1) rest

/-- `genSlowTestsReport` (lines 1206–1230). -/
def genSlowTestsReport (slowPassingTests slowFailingTests : List TestEvent) : String :=
  "Slow failing tests:\n" ++ slowLines 0 slowFailingTests
    ++ (if slowFailingTests.length = 0 then "<none>\n" else "")
    ++ "\nSlow passing tests:\n" ++ slowLines 0 slowPassingTests
    ++ (if slowPassingTests.length = 0 then "<none>\n" else "")

/-- The abstract issue handed to the posting callback `f`: its five string
arguments, in order. -/
structure FailureReport where
  title : String
  packageName : String
  testName : String
  message : String
  authorEmail : String
deriving DecidableEq

/-- `strings.Join(outputs, "")` over the `Output` fields of a test's events. -/
def joinOutputs (tes : List TestEvent) : String :=
  String.join (tes.map (·.Output))

/-- Lines 1107–1150: either the single generic "package failed under stress"
report, or — after consolidation — one report per failed top-level test, in
lexicographic test-name order.  The external author lookup is a parameter
(`authorFn`); its error case, which the code survives with an empty email, is
the caller's choice of `authorFn`. -/
def mkFailureReports (trimmedPkgName packageName : String)
    (authorFn : String → String → String) (s : RunState) : List FailureReport :=
  if s.lastEvent.Action = "fail" ∧ s.failures.length = 0 ∧ s.timedOutTestName = "" then
    [⟨trimmedPkgName ++ ": package failed under stress", packageName, "(unknown)",
      s.packageOutput, ""⟩]
  else
    let consolidated := consolidate s.failures
    let names := sortStrings (consolidated.map (·.1))
    names.map (fun test =>
      ⟨trimmedPkgName ++ ": " ++ test ++ " failed under stress", packageName, test,
        joinOutputs (mapGet consolidated test), authorFn packageName test⟩)

/-- Lines 1172–1175: `slowest` starts at `slowFailingTests[0]` and is replaced
by the head of the passing list when that head is strictly slower. -/
def slowestOf (sf0 : TestEvent) (sortedPassing : List TestEvent) : TestEvent :=
  match sortedPassing with
  | sp0 :: _ => if sp0.Elapsed > sf0.Elapsed then sp0 else sf0
  | [] => sf0

/-- Lines 1171–1201: the timeout-culprit decision.  Indexing
`slowFailingTests[0]` on an empty slice is the `sliceIndexPanic` error. -/
def mkTimeoutReports (trimmedPkgName packageName : String)
    (authorFn : String → String → String) (timedOutTestName : String)
    (sortedPassing sortedFailing : List TestEvent) (report : String) :
    Except GoErr (List FailureReport) :=
  if timedOutTestName ≠ "" then
    match sortedFailing with
    | [] => .error .sliceIndexPanic
    | sf0 :: _ =>
      let slowest := slowestOf sf0 sortedPassing
      if timedOutTestName = slowest.Test then
        .ok [⟨trimmedPkgName ++ ": " ++ timedOutTestName ++ " timed out under stress",
          packageName, timedOutTestName, report, authorFn packageName timedOutTestName⟩]
      else
        .ok [⟨trimmedPkgName ++ ": package timed out under stress", packageName,
          "(unknown)", report, "andreimatei1@gmail.com"⟩]
  else .ok []

/-- `listFailures`, with the posting callback modelled by collecting the
posted reports in emission order, paired with the slow-tests report text.
`cockroachPkgPrefix` stands for the external constant
`issues.CockroachPkgPrefix`. -/
def listFailures (cockroachPkgPrefix packageName : String)
    (authorFn : String → String → String) (events : List TestEvent) :
    Except GoErr (List FailureReport × String) :=
  match processEvents events initialState with
  | .error e => .error e
  | .ok s0 =>
    let s := endOfStream s0
    let trimmedPkgName := trimPrefix packageName cockroachPkgPrefix
    let failureReps := mkFailureReports trimmedPkgName packageName authorFn s
    let sortedPassing := sortSlowDesc s.slowPassingTests
    let sortedFailing := sortSlowDesc s.slowFailingTests
    let report := genSlowTestsReport sortedPassing sortedFailing
    match mkTimeoutReports trimmedPkgName packageName authorFn s.timedOutTestName
        sortedPassing sortedFailing report with
    | .error e => .error e
    | .ok timeoutReps => .ok (failureReps ++ timeoutReps, report)

/-- Does this event record a timeout (non-empty test, `output` action,
marker in the output text)?  Mirrors the guard of lines 1002–1005. -/
def marksTimeout (te : TestEvent) : Bool :=
  te.Test != "" && te.Action == "output" && strContains te.Output timeoutMsg

/-- Specification-side account of `elapsedTotalSec` (C8, amended): the sum of
`elapsed` over events whose test name contains no `/` (the empty package-level
name included), with positive `elapsed`, arriving while no timeout has been
recorded yet; `flag` says whether a timeout was already recorded. -/
def specElapsedTotal (flag : Bool) : List TestEvent → Rat
  | [] => 0
  | te :: rest =>
    (if flag = false ∧ te.Elapsed > 0 ∧ hasSlash te.Test = false then te.Elapsed else 0)
      + specElapsedTotal (flag || marksTimeout te) rest

instance instDecEqExceptGoErr {ε α : Type} [DecidableEq ε] [DecidableEq α] :
    DecidableEq (Except ε α) := fun a b =>
  match a, b with
  | .ok x, .ok y => if h : x = y then isTrue (by rw [h]) else isFalse (by simp [h])
  | .error x, .error y => if h : x = y then isTrue (by rw [h]) else isFalse (by simp [h])
  | .ok _, .error _ => isFalse (by simp)
  | .error _, .ok _ => isFalse (by simp)

/-! ### Projection lemmas for the loop-body pieces -/

@[simp] theorem stepPre_outstandingOutput (s : RunState) (te : TestEvent) :
    (stepPre s te).outstandingOutput = s.outstandingOutput := by
  simp only [stepPre]
  repeat' split
  all_goals rfl

@[simp] theorem stepPre_failures (s : RunState) (te : TestEvent) :
    (stepPre s te).failures = s.failures := by
  simp only [stepPre]
  repeat' split
  all_goals rfl

@[simp] theorem stepPre_slowPassingTests (s : RunState) (te : TestEvent) :
    (stepPre s te).slowPassingTests = s.slowPassingTests := by
  simp only [stepPre]
  repeat' split
  all_goals rfl

@[simp] theorem stepPre_slowFailingTests (s : RunState) (te : TestEvent) :
    (stepPre s te).slowFailingTests = s.slowFailingTests := by
  simp only [stepPre]
  repeat' split
  all_goals rfl

@[simp] theorem stepPre_timedOutTestName (s : RunState) (te : TestEvent) :
    (stepPre s te).timedOutTestName = s.timedOutTestName := by
  simp only [stepPre]
  repeat' split
  all_goals rfl

@[simp] theorem stepPre_timedOutEvent (s : RunState) (te : TestEvent) :
    (stepPre s te).timedOutEvent = s.timedOutEvent := by
  simp only [stepPre]
  repeat' split
  all_goals rfl

@[simp] theorem stepPre_lastTestName (s : RunState) (te : TestEvent) :
    (stepPre s te).lastTestName = s.lastTestName := by
  simp only [stepPre]
  repeat' split
  all_goals rfl

theorem stepPre_elapsedTotalSec (s : RunState) (te : TestEvent) :
    (stepPre s te).elapsedTotalSec =
      (if s.timedOutTestName = "" ∧ te.Elapsed > 0 ∧ hasSlash te.Test = false then
        s.elapsedTotalSec + te.Elapsed else s.elapsedTotalSec) := by
  simp only [stepPre]
  repeat' split
  all_goals simp_all

@[simp] theorem adjustElapsed_Action (s : RunState) (te : TestEvent) :
    (adjustElapsed s te).Action = te.Action := by
  simp only [adjustElapsed]
  split
  all_goals rfl

@[simp] theorem adjustElapsed_Test (s : RunState) (te : TestEvent) :
    (adjustElapsed s te).Test = te.Test := by
  simp only [adjustElapsed]
  split
  all_goals rfl

@[simp] theorem adjustElapsed_Output (s : RunState) (te : TestEvent) :
    (adjustElapsed s te).Output = te.Output := by
  simp only [adjustElapsed]
  split
  all_goals rfl

/-! ### Invariants of the decode loop -/

/-- An event that neither carries the timeout marker nor is a `fail` event is
processed without error, records no timeout, and leaves `failures` alone. -/
theorem processEvent_no_marker_no_fail (s : RunState) (te : TestEvent)
    (hm : strContains te.Output timeoutMsg = false)
    (hf : te.Action ≠ "fail")
    (ht : s.timedOutTestName = "") :
    ∃ s2, processEvent s te = .ok s2 ∧ s2.timedOutTestName = "" ∧ s2.failures = s.failures := by
  simp only [processEvent, stepSwitch]
  split_ifs
  all_goals
    first
    | (exfalso; simp_all; done)
    | (refine ⟨_, rfl, ?_, ?_⟩ <;> (try split) <;> simp [ht])

/-- Inversion for a successful run of the loop on a non-empty stream. -/
theorem processEvents_cons_ok (te : TestEvent) (rest : List TestEvent) (s0 s : RunState)
    (h : processEvents (te :: rest) s0 = .ok s) :
    ∃ s1, processEvent s0 te = .ok s1 ∧ processEvents rest s1 = .ok s := by
  simp only [processEvents] at h
  split at h
  · cases h
  · rename_i s1 heq
    exact ⟨s1, heq, h⟩

/-- Over a whole stream without markers or `fail` events the loop succeeds,
records no timeout, and leaves `failures` alone. -/
theorem processEvents_no_marker_no_fail (events : List TestEvent) :
    ∀ s0 s, processEvents events s0 = .ok s →
    (∀ te ∈ events, te.Action ≠ "fail") →
    (∀ te ∈ events, strContains te.Output timeoutMsg = false) →
    s0.timedOutTestName = "" →
    s.timedOutTestName = "" ∧ s.failures = s0.failures := by
  induction events with
  | nil =>
    intro s0 s hps _ _ ht
    simp only [processEvents] at hps
    cases hps
    exact ⟨ht, rfl⟩
  | cons te rest ih =>
    intro s0 s hps hf hm ht
    obtain ⟨s1, heq, ht1, hfl1⟩ := processEvent_no_marker_no_fail s0 te
      (hm te (by simp)) (hf te (by simp)) ht
    simp only [processEvents, heq] at hps
    obtain ⟨ht2, hfl2⟩ := ih s1 s hps (fun e he => hf e (by simp [he]))
      (fun e he => hm e (by simp [he])) ht1
    exact ⟨ht2, hfl2.trans hfl1⟩

@[simp] theorem stepPre_lastEvent (s : RunState) (te : TestEvent) :
    (stepPre s te).lastEvent = te := by
  simp only [stepPre]
  repeat' split
  all_goals rfl

/-- The `switch` never touches `lastEvent`. -/
theorem stepSwitch_lastEvent (s : RunState) (te : TestEvent) (s2 : RunState)
    (h : stepSwitch s te = .ok s2) : s2.lastEvent = s.lastEvent := by
  simp only [stepSwitch] at h
  split_ifs at h
  all_goals try split at h
  all_goals
    first
    | (injection h with h2; subst h2; first | rfl | (split <;> rfl))
    | injection h

/-- The loop records the last decoded event in `lastEvent`. -/
theorem processEvent_lastEvent (s : RunState) (te : TestEvent) (s2 : RunState)
    (h : processEvent s te = .ok s2) : s2.lastEvent = te := by
  have := stepSwitch_lastEvent (stepPre s te) (adjustElapsed (stepPre s te) te) s2 h
  simpa using this

/-- After a successful run of the loop, `lastEvent` is the stream's last
event (or the zero event the state started from, for an empty stream). -/
theorem processEvents_lastEvent (events : List TestEvent) :
    ∀ s0 s, processEvents events s0 = .ok s →
    s.lastEvent = events.getLast?.getD s0.lastEvent := by
  induction events with
  | nil =>
    intro s0 s hps
    simp only [processEvents] at hps
    cases hps
    rfl
  | cons te rest ih =>
    intro s0 s hps
    obtain ⟨s1, heq, hps⟩ := processEvents_cons_ok te rest s0 s hps
    have hlast := ih s1 s hps
    cases rest with
    | nil =>
      simp only [processEvents] at hps
      cases hps
      simpa using processEvent_lastEvent s0 te _ heq
    | cons b bs => simpa using hlast

/-! ### Claim C1 -/

/-- C1 (amended): if additionally the last-started test is not left
outstanding at end of stream, a stream with no `fail`-action events, no
timeout marker, and a non-`fail` final event produces zero FailureReports. -/
theorem c1_zero_reports (cockroachPkgPrefix packageName : String)
    (authorFn : String → String → String) (events : List TestEvent) (s : RunState)
    (hs : processEvents events initialState = .ok s)
    (h1 : ∀ te ∈ events, te.Action ≠ "fail")
    (h2 : ∀ te ∈ events, strContains te.Output timeoutMsg = false)
    (h3 : (events.getLast?.getD defaultTestEvent).Action ≠ "fail")
    (h4 : mapHas s.outstandingOutput s.lastTestName = false) :
    ∃ rep, listFailures cockroachPkgPrefix packageName authorFn events = .ok ([], rep) := by
  obtain ⟨ht, hfl⟩ := processEvents_no_marker_no_fail events initialState s hs h1 h2 rfl
  have hfl2 : s.failures = [] := hfl.trans rfl
  have hlast : s.lastEvent.Action ≠ "fail" := by
    rw [processEvents_lastEvent events initialState s hs]
    exact h3
  have hend : endOfStream s = s := by
    simp [endOfStream, ht, h4]
  have hfr : mkFailureReports (trimPrefix packageName cockroachPkgPrefix)
      packageName authorFn s = [] := by
    simp only [mkFailureReports]
    rw [if_neg (by simp [hlast])]
    rw [hfl2]
    rfl
  refine ⟨genSlowTestsReport (sortSlowDesc s.slowPassingTests)
    (sortSlowDesc s.slowFailingTests), ?_⟩
  simp only [listFailures, hs, hend, hfr]
  rw [mkTimeoutReports.eq_def, if_neg (by simp [ht])]
  rfl

section
attribute [local semireducible] Rat.add Rat.sub Rat.mul Rat.inv Rat.ofScientific

/-- C1 (counterexample): the stream `run A`, `output A "x"` contains no
`fail`-action events and no timeout marker, and its final decoded event is
not a `fail` outcome — yet the correlator posts one FailureReport (the
still-outstanding last test `A` is treated as failed), not zero. -/
theorem c1_counterexample :
    (([⟨"run", "A", "", 0, 0⟩, ⟨"output", "A", "x", 0, 0⟩] : List TestEvent).all
      (fun e => e.Action != "fail" && !strContains e.Output timeoutMsg) = true)
    ∧ ((([⟨"run", "A", "", 0, 0⟩, ⟨"output", "A", "x", 0, 0⟩] :
        List TestEvent).getLast?.getD defaultTestEvent).Action != "fail") = true
    ∧ (listFailures "" "p" (fun _ _ => "")
        [⟨"run", "A", "", 0, 0⟩, ⟨"output", "A", "x", 0, 0⟩]).map
        (fun out => out.1.length) = .ok 1 :=
  ⟨by decide, by decide, by decide⟩

/-- C1 (witness): the amended claim applied to the concrete stream
`run A`, `pass A` yields zero reports. -/
theorem c1_witness :
    ∃ rep, listFailures "" "p" (fun _ _ => "")
      [⟨"run", "A", "", 0, 0⟩, ⟨"pass", "A", "", 0, 0⟩] = .ok ([], rep) :=
  c1_zero_reports "" "p" (fun _ _ => "")
    [⟨"run", "A", "", 0, 0⟩, ⟨"pass", "A", "", 0, 0⟩] _ rfl
    (by decide) (by decide) (by decide) (by decide)

end

/-! ### Claim C2 -/

/-- C2 (amended, "last timeout wins"): every successfully processed `output`
event with a non-empty test name whose text contains the timeout marker
overwrites `timedOutTestName` and `timedOutEvent` with this event's data,
whether or not a timeout was already recorded. -/
theorem c2_last_timeout_wins (s : RunState) (te : TestEvent) (s2 : RunState)
    (h1 : te.Test ≠ "") (h2 : te.Action = "output")
    (h3 : strContains te.Output timeoutMsg = true)
    (h : processEvent s te = .ok s2) :
    s2.timedOutTestName = te.Test ∧ s2.timedOutEvent.Test = te.Test ∧
      s2.timedOutEvent.Output = te.Output := by
  simp only [processEvent, stepSwitch] at h
  split_ifs at h
  all_goals try split at h
  all_goals
    first
    | (injection h; done)
    | (exfalso; simp_all; done)
    | (injection h with h2; subst h2; refine ⟨by simp, by simp, by simp⟩)

/-- Entries added to the passing slow-test list in one step beat the 0.5s
threshold, are top-level, and carry a `pass` or `skip` action. -/
theorem processEvent_slowPassing (s : RunState) (te : TestEvent) (s2 : RunState)
    (h : processEvent s te = .ok s2) :
    ∀ e ∈ s2.slowPassingTests, e ∈ s.slowPassingTests ∨
      (e.Elapsed > shortTestFilterSecs ∧ hasSlash e.Test = false ∧
        (e.Action = "pass" ∨ e.Action = "skip")) := by
  simp only [processEvent, stepSwitch] at h
  split_ifs at h
  all_goals try split at h
  all_goals first | (injection h; done) | (injection h with h2; subst h2)
  all_goals intro e he
  all_goals try split at he
  all_goals simp only [List.mem_append, List.mem_singleton, stepPre_slowPassingTests] at he
  all_goals
    first
    | exact Or.inl he
    | (cases he with
       | inl hmem => exact Or.inl hmem
       | inr hnew => subst hnew; simp_all)

/-- Entries added to the failing slow-test list in one loop step are `fail`
events (the end-of-stream synthesis is handled separately). -/
theorem processEvent_slowFailing (s : RunState) (te : TestEvent) (s2 : RunState)
    (h : processEvent s te = .ok s2) :
    ∀ e ∈ s2.slowFailingTests, e ∈ s.slowFailingTests ∨ e.Action = "fail" := by
  simp only [processEvent, stepSwitch] at h
  split_ifs at h
  all_goals try split at h
  all_goals first | (injection h; done) | (injection h with h2; subst h2)
  all_goals intro e he
  all_goals try split at he
  all_goals simp only [List.mem_append, List.mem_singleton, stepPre_slowFailingTests] at he
  all_goals
    first
    | exact Or.inl he
    | (cases he with
       | inl hmem => exact Or.inl hmem
       | inr hnew => subst hnew; simp_all)

/-- Whenever a timeout is recorded, the stored `timedOutEvent` carries the
marker in its output text. -/
theorem processEvent_timedOutEvent_marker (s : RunState) (te : TestEvent) (s2 : RunState)
    (h : processEvent s te = .ok s2)
    (hto : s.timedOutTestName ≠ "" → strContains s.timedOutEvent.Output timeoutMsg = true) :
    s2.timedOutTestName ≠ "" → strContains s2.timedOutEvent.Output timeoutMsg = true := by
  simp only [processEvent, stepSwitch] at h
  split_ifs at h
  all_goals try split at h
  all_goals first | (injection h; done) | (injection h with h2; subst h2)
  all_goals intro hne
  all_goals try split at hne
  all_goals try split
  all_goals simp_all

/-- The slow-list and timeout-event invariants over a whole stream. -/
theorem processEvents_slow_inv (events : List TestEvent) :
    ∀ s0 s, processEvents events s0 = .ok s →
    (∀ e ∈ s0.slowPassingTests, e.Elapsed > shortTestFilterSecs ∧
      hasSlash e.Test = false ∧ (e.Action = "pass" ∨ e.Action = "skip")) →
    (∀ e ∈ s0.slowFailingTests, e.Action = "fail" ∨
      strContains e.Output timeoutMsg = true) →
    (s0.timedOutTestName ≠ "" → strContains s0.timedOutEvent.Output timeoutMsg = true) →
    ((∀ e ∈ s.slowPassingTests, e.Elapsed > shortTestFilterSecs ∧
        hasSlash e.Test = false ∧ (e.Action = "pass" ∨ e.Action = "skip"))
      ∧ (∀ e ∈ s.slowFailingTests, e.Action = "fail" ∨
        strContains e.Output timeoutMsg = true)
      ∧ (s.timedOutTestName ≠ "" → strContains s.timedOutEvent.Output timeoutMsg = true)) := by
  induction events with
  | nil =>
    intro s0 s hps hp hf hto
    simp only [processEvents] at hps
    cases hps
    exact ⟨hp, hf, hto⟩
  | cons te rest ih =>
    intro s0 s hps hp hf hto
    obtain ⟨s1, heq, hps⟩ := processEvents_cons_ok te rest s0 s hps
    refine ih s1 s hps ?_ ?_ ?_
    · intro e he
      cases processEvent_slowPassing s0 te s1 heq e he with
      | inl hmem => exact hp e hmem
      | inr hnew => exact hnew
    · intro e he
      cases processEvent_slowFailing s0 te s1 heq e he with
      | inl hmem => exact hf e hmem
      | inr hnew => exact Or.inl hnew
    · exact processEvent_timedOutEvent_marker s0 te s1 heq hto

/-! ### Map-presence lemmas -/

theorem mapHas_iff (m : EventMap) (k : String) :
    mapHas m k = true ↔ ∃ p ∈ m, p.1 = k := by
  simp [mapHas, List.find?_isSome]

theorem mapHas_mapSet_self (m : EventMap) (k : String) (v : List TestEvent) :
    mapHas (mapSet m k v) k = true := by
  rw [mapHas_iff]
  unfold mapSet
  split
  · rename_i hhas
    rw [mapHas_iff] at hhas
    obtain ⟨p, hp, hpk⟩ := hhas
    exact ⟨(k, v), List.mem_map.mpr ⟨p, hp, by simp [hpk]⟩, rfl⟩
  · exact ⟨(k, v), by simp⟩

theorem mapHas_mapAppend_self (m : EventMap) (k : String) (v : List TestEvent) :
    mapHas (mapAppend m k v) k = true :=
  mapHas_mapSet_self m k (mapGet m k ++ v)

theorem mapHas_mapSet_mono (m : EventMap) (k : String) (v : List TestEvent) (t : String)
    (h : mapHas m t = true) : mapHas (mapSet m k v) t = true := by
  rw [mapHas_iff] at h
  obtain ⟨p, hp, hpt⟩ := h
  rw [mapHas_iff]
  unfold mapSet
  split
  · by_cases hk : p.1 = k
    · exact ⟨(k, v), List.mem_map.mpr ⟨p, hp, by simp [hk]⟩, by rw [← hpt, hk]⟩
    · exact ⟨p, List.mem_map.mpr ⟨p, hp, by simp [hk]⟩, hpt⟩
  · exact ⟨p, by simp [hp], hpt⟩

theorem mapHas_mapAppend_mono (m : EventMap) (k : String) (v : List TestEvent) (t : String)
    (h : mapHas m t = true) : mapHas (mapAppend m k v) t = true :=
  mapHas_mapSet_mono m k (mapGet m k ++ v) t h

theorem mapHas_mapErase_ne (m : EventMap) (k t : String) (hne : t ≠ k) :
    mapHas (mapErase m k) t = mapHas m t := by
  unfold mapErase
  rcases h : mapHas m t with _ | _
  · rw [Bool.eq_false_iff] at h ⊢
    intro hc
    apply h
    rw [mapHas_iff] at hc ⊢
    obtain ⟨p, hp, hpt⟩ := hc
    exact ⟨p, (List.mem_filter.mp hp).1, hpt⟩
  · rw [mapHas_iff] at h ⊢
    obtain ⟨p, hp, hpt⟩ := h
    refine ⟨p, List.mem_filter.mpr ⟨hp, ?_⟩, hpt⟩
    simp [hpt, hne]

/-- Once a timeout is recorded, either the timed-out test is still in
`outstandingOutput` or the failing slow-test list is non-empty — the
invariant the timeout handling below the loop relies on. -/
theorem processEvent_timeout_nonempty (s : RunState) (te : TestEvent) (s2 : RunState)
    (h : processEvent s te = .ok s2)
    (hinv : s.timedOutTestName ≠ "" →
      (mapHas s.outstandingOutput s.timedOutTestName = true ∨ s.slowFailingTests ≠ [])) :
    s2.timedOutTestName ≠ "" →
      (mapHas s2.outstandingOutput s2.timedOutTestName = true ∨ s2.slowFailingTests ≠ []) := by
  simp only [processEvent, stepSwitch] at h
  split_ifs at h
  all_goals try split at h
  all_goals first | (injection h; done) | (injection h with h2; subst h2)
  all_goals intro hne
  all_goals
    first
    | (exfalso; simp_all; done)
    | (right; simp; done)
    | (left; simpa using mapHas_mapAppend_self _ _ _)
    | (rcases hinv (by simpa using hne) with h3 | h3
       · left
         simpa using mapHas_mapAppend_mono _ _ _ _ h3
       · right
         simpa using h3)
    | (rcases hinv (by simpa using hne) with h3 | h3
       · left
         simp only [stepPre_outstandingOutput, stepPre_timedOutTestName]
         rw [mapHas_mapErase_ne]
         · exact h3
         · simp_all
       · right
         simpa using h3)
    | (simpa using hinv (by simpa using hne))

/-- The timeout/slow-list invariant over a whole stream. -/
theorem processEvents_timeout_nonempty (events : List TestEvent) :
    ∀ s0 s, processEvents events s0 = .ok s →
    (s0.timedOutTestName ≠ "" →
      (mapHas s0.outstandingOutput s0.timedOutTestName = true ∨ s0.slowFailingTests ≠ [])) →
    (s.timedOutTestName ≠ "" →
      (mapHas s.outstandingOutput s.timedOutTestName = true ∨ s.slowFailingTests ≠ [])) := by
  induction events with
  | nil =>
    intro s0 s hps hinv
    simp only [processEvents] at hps
    cases hps
    exact hinv
  | cons te rest ih =>
    intro s0 s hps hinv
    obtain ⟨s1, heq, hps⟩ := processEvents_cons_ok te rest s0 s hps
    exact ih s1 s hps (processEvent_timeout_nonempty s0 te s1 heq hinv)

/-! ### Sorting lemmas -/

@[simp] theorem insertDesc_length (te : TestEvent) (l : List TestEvent) :
    (insertDesc te l).length = l.length + 1 := by
  induction l with
  | nil => rfl
  | cons x xs ih =>
    unfold insertDesc
    split
    · rfl
    · simpa using ih

@[simp] theorem sortSlowDesc_length (l : List TestEvent) :
    (sortSlowDesc l).length = l.length := by
  unfold sortSlowDesc
  induction l with
  | nil => rfl
  | cons x xs ih => simpa using ih

theorem sortSlowDesc_ne_nil (l : List TestEvent) (h : l ≠ []) : sortSlowDesc l ≠ [] := by
  intro hc
  apply h
  have := sortSlowDesc_length l
  rw [hc] at this
  exact List.length_eq_zero.mp this.symm

@[simp] theorem endOfStream_timedOutTestName (s : RunState) :
    (endOfStream s).timedOutTestName = s.timedOutTestName := by
  unfold endOfStream
  split_ifs
  all_goals rfl

/-- With a recorded timeout and a non-empty (sorted) failing list, the
timeout-culprit step always succeeds. -/
theorem mkTimeoutReports_cons_ok (trimmedPkgName packageName : String)
    (authorFn : String → String → String) (ton : String) (sp : List TestEvent)
    (sf0 : TestEvent) (sfrest : List TestEvent) (report : String) (hton : ton ≠ "") :
    ∃ reps, mkTimeoutReports trimmedPkgName packageName authorFn ton sp
      (sf0 :: sfrest) report = .ok reps := by
  unfold mkTimeoutReports
  rw [if_pos hton]
  dsimp only
  split
  · exact ⟨_, rfl⟩
  · exact ⟨_, rfl⟩

/-- After end-of-stream reconciliation of a successful run with a recorded
timeout, the failing slow-test list is non-empty. -/
theorem endOfStream_slowFailing_ne_nil (events : List TestEvent) (s : RunState)
    (hs : processEvents events initialState = .ok s)
    (hto : s.timedOutTestName ≠ "") : (endOfStream s).slowFailingTests ≠ [] := by
  have hinv := processEvents_timeout_nonempty events initialState s hs
    (by intro hne; exact absurd rfl hne) hto
  unfold endOfStream
  split_ifs
  all_goals simp_all

/-! ### Claim C4 -/

/-- C4: whenever correlation completes normally with a recorded timeout, the
failing slow-test list at the Timeout Culprit Resolver is non-empty, so
taking its first element succeeds (no `sliceIndexPanic`). -/
theorem c4_failing_list_nonempty (events : List TestEvent) (s : RunState)
    (hs : processEvents events initialState = .ok s)
    (hto : (endOfStream s).timedOutTestName ≠ "") :
    (endOfStream s).slowFailingTests ≠ [] ∧
      ∀ trimmedPkgName packageName authorFn report, ∃ reps,
        mkTimeoutReports trimmedPkgName packageName authorFn
          (endOfStream s).timedOutTestName
          (sortSlowDesc (endOfStream s).slowPassingTests)
          (sortSlowDesc (endOfStream s).slowFailingTests) report = .ok reps := by
  rw [endOfStream_timedOutTestName] at hto
  have hne : (endOfStream s).slowFailingTests ≠ [] :=
    endOfStream_slowFailing_ne_nil events s hs hto
  refine ⟨hne, ?_⟩
  intro trimmedPkgName packageName authorFn report
  rcases hsf : sortSlowDesc (endOfStream s).slowFailingTests with _ | ⟨sf0, rest⟩
  · exact absurd hsf (sortSlowDesc_ne_nil _ hne)
  · exact mkTimeoutReports_cons_ok _ _ _ _ _ _ _ _
      (by rw [endOfStream_timedOutTestName]; exact hto)

section
attribute [local semireducible] Rat.add Rat.sub Rat.mul Rat.inv Rat.ofScientific

/-- C4 (witness): the claim at the concrete one-event stream
`output A "panic: test timed out after 1s"`. -/
theorem c4_witness :
    (endOfStream ⟨[("A", [⟨"output", "A", "panic: test timed out after 1s", 0, 0⟩])],
      [], [], [], "", false, true, 0, "A",
      ⟨"output", "A", "panic: test timed out after 1s", 0, 0⟩, 0, "",
      ⟨"output", "A", "panic: test timed out after 1s", 0, 0⟩⟩).slowFailingTests ≠ [] ∧
    ∃ reps, mkTimeoutReports "p" "pkg" (fun _ _ => "")
      (endOfStream ⟨[("A", [⟨"output", "A", "panic: test timed out after 1s", 0, 0⟩])],
        [], [], [], "", false, true, 0, "A",
        ⟨"output", "A", "panic: test timed out after 1s", 0, 0⟩, 0, "",
        ⟨"output", "A", "panic: test timed out after 1s", 0, 0⟩⟩).timedOutTestName
      (sortSlowDesc (endOfStream ⟨[("A", [⟨"output", "A", "panic: test timed out after 1s", 0, 0⟩])],
        [], [], [], "", false, true, 0, "A",
        ⟨"output", "A", "panic: test timed out after 1s", 0, 0⟩, 0, "",
        ⟨"output", "A", "panic: test timed out after 1s", 0, 0⟩⟩).slowPassingTests)
      (sortSlowDesc (endOfStream ⟨[("A", [⟨"output", "A", "panic: test timed out after 1s", 0, 0⟩])],
        [], [], [], "", false, true, 0, "A",
        ⟨"output", "A", "panic: test timed out after 1s", 0, 0⟩, 0, "",
        ⟨"output", "A", "panic: test timed out after 1s", 0, 0⟩⟩).slowFailingTests) "r" = .ok reps :=
  ⟨(c4_failing_list_nonempty [⟨"output", "A", "panic: test timed out after 1s", 0, 0⟩]
      _ (by decide) (by decide)).1,
   (c4_failing_list_nonempty [⟨"output", "A", "panic: test timed out after 1s", 0, 0⟩]
      _ (by decide) (by decide)).2 "p" "pkg" (fun _ _ => "") "r"⟩

end

/-! ### Claim C6 -/

/-- C6 (amended): whenever the marker text matches the fixed pattern with a
parseable magnitude `d` and unit `m` or `s`, the untrusted-mode reconciler
yields `d·60 − elapsedTotalSec` resp. `d − elapsedTotalSec`. -/
theorem c6_reconciler_formula (output : String) (tot : Rat) (g1 : List Char) (u : Char)
    (d : Rat) (hm : findTimeoutMatch output = some (g1, u))
    (hp : parseFloatDec g1 = some d) (hu : u = 'm' ∨ u = 's') :
    reconcileUntrusted output tot = .ok ((if u = 'm' then d * 60 else d) - tot) := by
  unfold reconcileUntrusted
  rw [hm]
  dsimp only
  rw [hp]
  rcases hu with rfl | rfl <;> simp

section
attribute [local semireducible] Rat.add Rat.sub Rat.mul Rat.inv Rat.ofScientific

/-- C6 (witness): the amended formula at the full marker
`panic: test timed out after 2m` with `elapsedTotalSec = 45` gives
`2·60 − 45 = 75` seconds. -/
theorem c6_witness :
    reconcileUntrusted "panic: test timed out after 2m" (mkRat 45 1) = .ok (mkRat 75 1) := by
  have h := c6_reconciler_formula "panic: test timed out after 2m" (mkRat 45 1)
    ['2'] 'm' (mkRat 2 1) (by decide) (by decide) (Or.inl rfl)
  rw [h]
  decide

/-- C6 (counterexample): the claim's own scenario text `timed out after 2m`
does not contain the pattern's literal `panic: test timed out after `, so the
reconciler yields the sentinel `-1`, not the claimed `75`. -/
theorem c6_counterexample :
    reconcileUntrusted "timed out after 2m" (mkRat 45 1) = .ok (-1)
    ∧ decide ((-1 : Rat) = mkRat 75 1) = false :=
  ⟨by decide, by decide⟩

end

/-! ### Claim C7 -/

@[simp] theorem stepPre_trustTimestamps_false (s : RunState) (te : TestEvent)
    (h : s.trustTimestamps = false) : (stepPre s te).trustTimestamps = false := by
  simp only [stepPre]
  repeat' split
  all_goals simp_all

/-- C7 (amended): in untrusted-timestamp mode, a marker whose text does not
match the fixed pattern yields the sentinel `-1` from the reconciler, and the
correlator continues: the event is processed without error, recording the
timeout with elapsed `-1`.  (Marker texts that do match the pattern but have
an unparseable magnitude or an unknown unit abort instead — see the
counterexample.) -/
theorem c7_unparseable_sentinel (s : RunState) (te : TestEvent)
    (hm : findTimeoutMatch te.Output = none)
    (htest : te.Test ≠ "") (hact : te.Action = "output")
    (hmark : strContains te.Output timeoutMsg = true)
    (htr : s.trustTimestamps = false) :
    reconcileUntrusted te.Output s.elapsedTotalSec = .ok (-1) ∧
    ∃ s2, processEvent s te = .ok s2 ∧ s2.timedOutTestName = te.Test ∧
      s2.timedOutEvent.Elapsed = -1 := by
  constructor
  · unfold reconcileUntrusted
    rw [hm]
  · simp only [processEvent, stepSwitch]
    rw [if_pos (by simpa using htest)]
    rw [if_neg (by simp [hact]), if_pos (by simpa using hact)]
    rw [if_pos (by simpa using hmark)]
    rw [if_neg (by rw [stepPre_trustTimestamps_false s te htr]; simp)]
    have hrec : reconcileUntrusted (adjustElapsed (stepPre s te) te).Output
        (stepPre s te).elapsedTotalSec = .ok (-1) := by
      rw [adjustElapsed_Output]
      unfold reconcileUntrusted
      rw [hm]
    rw [hrec]
    exact ⟨_, rfl, by simp, by simp⟩

section
attribute [local semireducible] Rat.add Rat.sub Rat.mul Rat.inv Rat.ofScientific

/-- The pattern's final `(.)` never matches a newline: with the literal
followed directly by a line break and no later occurrence, the engine finds
no match and the reconciler falls back to the sentinel. -/
theorem reconcile_newline_blocked_sentinel :
    findTimeoutMatch "panic: test timed out after \ngoroutine 1 [running]:" = none
    ∧ reconcileUntrusted "panic: test timed out after \ngoroutine 1 [running]:" 0
      = .ok (-1) :=
  ⟨by decide, by decide⟩

/-- Leftmost-match semantics retry later occurrences of the literal: when the
first occurrence is newline-blocked but a second one completes, the match is
taken there. -/
theorem reconcile_newline_skips_to_later_occurrence :
    findTimeoutMatch "panic: test timed out after \npanic: test timed out after 2m"
      = some (['2'], 'm')
    ∧ reconcileUntrusted "panic: test timed out after \npanic: test timed out after 2m"
      (mkRat 45 1) = .ok (mkRat 75 1) :=
  ⟨by decide, by decide⟩

/-- C7 (counterexample): the marker text `panic: test timed out after 5h`
cannot be parsed (unknown unit `h`), and rather than falling back to the
sentinel it aborts the whole run via `log.Fatalf`. -/
theorem c7_counterexample :
    strContains "panic: test timed out after 5h" timeoutMsg = true
    ∧ reconcileUntrusted "panic: test timed out after 5h" 0 = .error .fatalTimeUnit :=
  ⟨by decide, by decide⟩

/-- C7 (witness): the amended claim at the bare marker text
`panic: test timed out after` (which the pattern does not match). -/
theorem c7_witness :
    reconcileUntrusted "panic: test timed out after" (0 : Rat) = .ok (-1) ∧
    ∃ s2, processEvent
      ⟨[], [], [], [], "", true, false, 0, "", defaultTestEvent, 0, "", defaultTestEvent⟩
      ⟨"output", "A", "panic: test timed out after", 0, 0⟩ = .ok s2 ∧
      s2.timedOutTestName = "A" ∧ s2.timedOutEvent.Elapsed = -1 :=
  c7_unparseable_sentinel
    ⟨[], [], [], [], "", true, false, 0, "", defaultTestEvent, 0, "", defaultTestEvent⟩
    ⟨"output", "A", "panic: test timed out after", 0, 0⟩
    (by decide) (by decide) rfl (by decide) rfl

end

/-! ### Claim C8 -/

/-- The `switch` never touches `elapsedTotalSec`. -/
theorem stepSwitch_elapsedTotalSec (s : RunState) (te : TestEvent) (s2 : RunState)
    (h : stepSwitch s te = .ok s2) : s2.elapsedTotalSec = s.elapsedTotalSec := by
  simp only [stepSwitch] at h
  split_ifs at h
  all_goals try split at h
  all_goals
    first
    | (injection h with h2; subst h2; first | rfl | (split <;> rfl))
    | injection h

/-- One loop step adds `te.Elapsed` to `elapsedTotalSec` exactly when no
timeout is recorded yet, `te.Elapsed` is positive, and the test name (empty
included) has no slash. -/
theorem processEvent_elapsedTotalSec (s : RunState) (te : TestEvent) (s2 : RunState)
    (h : processEvent s te = .ok s2) :
    s2.elapsedTotalSec =
      (if s.timedOutTestName = "" ∧ te.Elapsed > 0 ∧ hasSlash te.Test = false then
        s.elapsedTotalSec + te.Elapsed else s.elapsedTotalSec) := by
  have := stepSwitch_elapsedTotalSec (stepPre s te) (adjustElapsed (stepPre s te) te) s2 h
  rw [this, stepPre_elapsedTotalSec]

/-- After one loop step a timeout is recorded iff one was recorded before or
this event carries the marker. -/
theorem processEvent_timedOut_flag (s : RunState) (te : TestEvent) (s2 : RunState)
    (h : processEvent s te = .ok s2) :
    (s2.timedOutTestName != "") = ((s.timedOutTestName != "") || marksTimeout te) := by
  simp only [processEvent, stepSwitch] at h
  split_ifs at h
  all_goals try split at h
  all_goals first | (injection h; done) | (injection h with h2; subst h2)
  all_goals simp_all [marksTimeout]

/-- `elapsedTotalSec` over a whole stream is the initial value plus the
specification-side sum. -/
theorem processEvents_elapsedTotalSec (events : List TestEvent) :
    ∀ s0 s, processEvents events s0 = .ok s →
    s.elapsedTotalSec =
      s0.elapsedTotalSec + specElapsedTotal (s0.timedOutTestName != "") events := by
  induction events with
  | nil =>
    intro s0 s hps
    simp only [processEvents] at hps
    cases hps
    simp [specElapsedTotal]
  | cons te rest ih =>
    intro s0 s hps
    obtain ⟨s1, heq, hps⟩ := processEvents_cons_ok te rest s0 s hps
    have h1 := processEvent_elapsedTotalSec s0 te s1 heq
    have h2 := processEvent_timedOut_flag s0 te s1 heq
    have h3 := ih s1 s hps
    have hcons : ∀ (flag : Bool), specElapsedTotal flag (te :: rest) =
        (if flag = false ∧ te.Elapsed > 0 ∧ hasSlash te.Test = false then te.Elapsed else 0)
          + specElapsedTotal (flag || marksTimeout te) rest := fun _ => rfl
    rw [h3, h2, h1, hcons]
    by_cases hc : s0.timedOutTestName = "" ∧ te.Elapsed > 0 ∧ hasSlash te.Test = false
    · rw [if_pos hc, if_pos (by simpa using hc)]
      ring
    · rw [if_neg hc, if_neg (by simpa using hc)]
      ring

/-- C8 (amended): at end of stream `elapsedTotalSec` equals the sum of
`elapsed` over exactly those events whose test name contains no `/` — the
empty, package-level name included — with positive `elapsed`, that arrived
while no timeout had yet been recorded. -/
theorem c8_elapsed_total (events : List TestEvent) (s : RunState)
    (hs : processEvents events initialState = .ok s) :
    s.elapsedTotalSec = specElapsedTotal false events := by
  rw [processEvents_elapsedTotalSec events initialState s hs]
  show (0 : Rat) + specElapsedTotal false events = specElapsedTotal false events
  rw [zero_add]

section
attribute [local semireducible] Rat.add Rat.sub Rat.mul Rat.inv Rat.ofScientific

/-- C8 (counterexample): a package-level event (empty test name) with
`elapsed = 5` adds its 5 seconds to `elapsedTotalSec`, while the claim's sum
over non-empty-named events is 0. -/
theorem c8_counterexample :
    (processEvents [⟨"pass", "", "", 0, mkRat 5 1⟩] initialState).map
      (·.elapsedTotalSec) = .ok (mkRat 5 1)
    ∧ ("" == "") = true
    ∧ decide ((mkRat 5 1) = 0) = false :=
  ⟨by decide, by decide, by decide⟩

/-- C8 (witness): the amended claim at the concrete one-event stream
consisting of a package-level event with `elapsed = 5`. -/
theorem c8_witness :
    (⟨[], [], [], [], "", true, true, mkRat 5 1, "", defaultTestEvent, 0, "",
        ⟨"pass", "", "", 0, mkRat 5 1⟩⟩ : RunState).elapsedTotalSec
      = specElapsedTotal false [⟨"pass", "", "", 0, mkRat 5 1⟩] :=
  c8_elapsed_total [⟨"pass", "", "", 0, mkRat 5 1⟩] _ (by decide)

end

/-! ### Claim C5 -/

/-- C5: on every successfully correlated stream with a recorded timeout,
exactly one timeout FailureReport is appended after the per-test failure
reports; its message is the slow-test report text, and it names the
timed-out test when that test is `slowest` (the larger-`elapsed` of the two
sorted lists' heads), else the generic `(unknown)` test. -/
theorem c5_timeout_report (cockroachPkgPrefix packageName : String)
    (authorFn : String → String → String) (events : List TestEvent)
    (s : RunState) (out : List FailureReport × String)
    (hs : processEvents events initialState = .ok s)
    (hto : (endOfStream s).timedOutTestName ≠ "")
    (hout : listFailures cockroachPkgPrefix packageName authorFn events = .ok out) :
    ∃ sf0 rest r,
      sortSlowDesc (endOfStream s).slowFailingTests = sf0 :: rest ∧
      out.1 = mkFailureReports (trimPrefix packageName cockroachPkgPrefix) packageName
        authorFn (endOfStream s) ++ [r] ∧
      r.message = out.2 ∧
      r.testName = (if (endOfStream s).timedOutTestName =
          (slowestOf sf0 (sortSlowDesc (endOfStream s).slowPassingTests)).Test
        then (endOfStream s).timedOutTestName else "(unknown)") := by
  have hne : (endOfStream s).slowFailingTests ≠ [] :=
    endOfStream_slowFailing_ne_nil events s hs (by rwa [endOfStream_timedOutTestName] at hto)
  obtain ⟨sf0, rest, hsf⟩ :
      ∃ sf0 rest, sortSlowDesc (endOfStream s).slowFailingTests = sf0 :: rest := by
    rcases h : sortSlowDesc (endOfStream s).slowFailingTests with _ | ⟨a, b⟩
    · exact absurd h (sortSlowDesc_ne_nil _ hne)
    · exact ⟨a, b, rfl⟩
  refine ⟨sf0, rest, ?_⟩
  simp only [listFailures, hs] at hout
  rw [mkTimeoutReports.eq_def, if_pos hto, hsf] at hout
  dsimp only at hout
  by_cases hc : (endOfStream s).timedOutTestName =
      (slowestOf sf0 (sortSlowDesc (endOfStream s).slowPassingTests)).Test
  · rw [if_pos hc] at hout
    dsimp only at hout
    injection hout with h2
    subst h2
    exact ⟨_, hsf, rfl, rfl, by rw [if_pos hc]⟩
  · rw [if_neg hc] at hout
    dsimp only at hout
    injection hout with h2
    subst h2
    exact ⟨_, hsf, rfl, rfl, by rw [if_neg hc]⟩

section
attribute [local semireducible] Rat.add Rat.sub Rat.mul Rat.inv Rat.ofScientific

/-- C5 (witness): the claim at the concrete one-event stream
`output A "panic: test timed out after 1s"`, whose single report names `A`
as the timeout culprit with the slow-test report as message. -/
theorem c5_witness :
    ∃ sf0 rest r,
      sortSlowDesc (endOfStream ⟨[("A", [⟨"output", "A", "panic: test timed out after 1s", 0, 0⟩])],
        [], [], [], "", false, true, 0, "A",
        ⟨"output", "A", "panic: test timed out after 1s", 0, 0⟩, 0, "",
        ⟨"output", "A", "panic: test timed out after 1s", 0, 0⟩⟩).slowFailingTests = sf0 :: rest ∧
      [(⟨"p: A timed out under stress", "p", "A",
          "Slow failing tests:\nA - 0.00s\n\nSlow passing tests:\n<none>\n", ""⟩ : FailureReport)] =
        mkFailureReports (trimPrefix "p" "") "p" (fun _ _ => "")
          (endOfStream ⟨[("A", [⟨"output", "A", "panic: test timed out after 1s", 0, 0⟩])],
            [], [], [], "", false, true, 0, "A",
            ⟨"output", "A", "panic: test timed out after 1s", 0, 0⟩, 0, "",
            ⟨"output", "A", "panic: test timed out after 1s", 0, 0⟩⟩) ++ [r] ∧
      r.message = "Slow failing tests:\nA - 0.00s\n\nSlow passing tests:\n<none>\n" ∧
      r.testName = (if (endOfStream ⟨[("A", [⟨"output", "A", "panic: test timed out after 1s", 0, 0⟩])],
            [], [], [], "", false, true, 0, "A",
            ⟨"output", "A", "panic: test timed out after 1s", 0, 0⟩, 0, "",
            ⟨"output", "A", "panic: test timed out after 1s", 0, 0⟩⟩).timedOutTestName =
          (slowestOf sf0 (sortSlowDesc
            (endOfStream ⟨[("A", [⟨"output", "A", "panic: test timed out after 1s", 0, 0⟩])],
              [], [], [], "", false, true, 0, "A",
              ⟨"output", "A", "panic: test timed out after 1s", 0, 0⟩, 0, "",
              ⟨"output", "A", "panic: test timed out after 1s", 0, 0⟩⟩).slowPassingTests)).Test
        then (endOfStream ⟨[("A", [⟨"output", "A", "panic: test timed out after 1s", 0, 0⟩])],
            [], [], [], "", false, true, 0, "A",
            ⟨"output", "A", "panic: test timed out after 1s", 0, 0⟩, 0, "",
            ⟨"output", "A", "panic: test timed out after 1s", 0, 0⟩⟩).timedOutTestName
        else "(unknown)") :=
  c5_timeout_report "" "p" (fun _ _ => "")
    [⟨"output", "A", "panic: test timed out after 1s", 0, 0⟩]
    ⟨[("A", [⟨"output", "A", "panic: test timed out after 1s", 0, 0⟩])],
      [], [], [], "", false, true, 0, "A",
      ⟨"output", "A", "panic: test timed out after 1s", 0, 0⟩, 0, "",
      ⟨"output", "A", "panic: test timed out after 1s", 0, 0⟩⟩
    ([⟨"p: A timed out under stress", "p", "A",
        "Slow failing tests:\nA - 0.00s\n\nSlow passing tests:\n<none>\n", ""⟩],
      "Slow failing tests:\nA - 0.00s\n\nSlow passing tests:\n<none>\n")
    (by decide) (by decide) (by decide)

end

/-! ### Claim C9 -/

theorem splitFirstSlash_none_iff (l : List Char) :
    splitFirstSlash l = none ↔ l.contains '/' = false := by
  induction l with
  | nil => simp [splitFirstSlash]
  | cons c rest ih =>
    unfold splitFirstSlash
    by_cases hc : c = '/'
    · subst hc
      simp
    · rw [if_neg (by simpa using hc)]
      cases hr : splitFirstSlash rest with
      | none => simp_all [List.contains_cons, beq_eq_false_iff_ne, Ne.symm hc]
      | some q => simp_all [List.contains_cons]

theorem splitFirstSlash_prefix_no_slash (l : List Char) :
    ∀ pre post, splitFirstSlash l = some (pre, post) → pre.contains '/' = false := by
  induction l with
  | nil => intro pre post h; cases h
  | cons c rest ih =>
    intro pre post h
    unfold splitFirstSlash at h
    split at h
    · cases h
      rfl
    · rename_i hc
      cases hr : splitFirstSlash rest with
      | none => rw [hr] at h; cases h
      | some q =>
        rw [hr] at h
        simp only [Option.map] at h
        cases h
        simp only [List.contains_cons]
        rw [beq_false_of_ne (by intro hcc; exact hc (by simp [hcc.symm])),
          ih q.1 q.2 (by rw [hr]), Bool.or_self]

theorem mem_keys_mapSet (m : EventMap) (k : String) (v : List TestEvent) (a : String)
    (h : a ∈ (mapSet m k v).map Prod.fst) : a ∈ m.map Prod.fst ∨ a = k := by
  unfold mapSet at h
  split at h
  · obtain ⟨p, hp, hpa⟩ := List.mem_map.mp h
    obtain ⟨q, hq, hqp⟩ := List.mem_map.mp hp
    by_cases hqk : q.1 = k
    · right
      rw [← hpa, ← hqp]
      simp [hqk]
    · left
      refine List.mem_map.mpr ⟨q, hq, ?_⟩
      rw [← hpa, ← hqp]
      simp [hqk]
  · rw [List.map_append] at h
    rcases List.mem_append.mp h with h2 | h2
    · exact Or.inl h2
    · right
      simpa using h2

theorem mem_keys_mapAppend (m : EventMap) (k : String) (v : List TestEvent) (a : String)
    (h : a ∈ (mapAppend m k v).map Prod.fst) : a ∈ m.map Prod.fst ∨ a = k :=
  mem_keys_mapSet m k (mapGet m k ++ v) a h

theorem mem_keys_mapErase (m : EventMap) (k a : String)
    (h : a ∈ (mapErase m k).map Prod.fst) : a ∈ m.map Prod.fst ∧ a ≠ k := by
  unfold mapErase at h
  obtain ⟨p, hp, hpa⟩ := List.mem_map.mp h
  have hf := List.mem_filter.mp hp
  refine ⟨List.mem_map.mpr ⟨p, hf.1, hpa⟩, ?_⟩
  rw [← hpa]
  simpa using hf.2

/-- A key with a slash that is absent stays absent through the consolidation
fold (the fold only creates slash-free parent keys). -/
theorem consolidate_foldl_no_new_slash (l : List (String × List TestEvent)) :
    ∀ acc a, hasSlash a = true → a ∉ acc.map Prod.fst →
    a ∉ (l.foldl consolidateStep acc).map Prod.fst := by
  induction l with
  | nil => intro acc a _ hnot; simpa using hnot
  | cons p rest ih =>
    intro acc a hsl hnot
    simp only [List.foldl_cons]
    refine ih (consolidateStep acc p) a hsl ?_
    unfold consolidateStep
    split
    · rename_i q hq
      intro hmem
      have h2 := mem_keys_mapErase _ _ _ hmem
      rcases mem_keys_mapAppend _ _ _ _ h2.1 with h3 | h3
      · exact hnot h3
      · rw [h3] at hsl
        unfold hasSlash at hsl
        rw [splitFirstSlash_prefix_no_slash p.1.data q.1 q.2 hq] at hsl
        cases hsl
    · exact hnot

/-- A key with a slash that has an entry in the iterated snapshot is absent
from the fold's result. -/
theorem consolidate_foldl_erases_slash (l : List (String × List TestEvent)) :
    ∀ acc p, p ∈ l → hasSlash p.1 = true →
    p.1 ∉ (l.foldl consolidateStep acc).map Prod.fst := by
  induction l with
  | nil => intro acc p hp; cases hp
  | cons q rest ih =>
    intro acc p hp hsl
    rcases List.mem_cons.mp hp with rfl | hp2
    · simp only [List.foldl_cons]
      refine consolidate_foldl_no_new_slash rest (consolidateStep acc p) p.1 hsl ?_
      unfold consolidateStep
      cases hq : splitFirstSlash p.1.data with
      | none =>
        rw [splitFirstSlash_none_iff] at hq
        unfold hasSlash at hsl
        rw [hq] at hsl
        cases hsl
      | some r =>
        intro hmem
        exact (mem_keys_mapErase _ _ _ hmem).2 rfl
    · exact ih (consolidateStep acc q) p hp2 hsl

/-- Keys of the fold's result: either a key of the accumulator or slash-free. -/
theorem mem_keys_consolidate_foldl (l : List (String × List TestEvent)) :
    ∀ acc a, a ∈ (l.foldl consolidateStep acc).map Prod.fst →
    a ∈ acc.map Prod.fst ∨ hasSlash a = false := by
  induction l with
  | nil => intro acc a h; exact Or.inl (by simpa using h)
  | cons p rest ih =>
    intro acc a h
    rcases ih (consolidateStep acc p) a h with h2 | h2
    · unfold consolidateStep at h2
      revert h2
      split
      · rename_i q hq
        intro h2
        rcases mem_keys_mapAppend _ _ _ _ (mem_keys_mapErase _ _ _ h2).1 with h3 | h3
        · exact Or.inl h3
        · right
          rw [h3]
          unfold hasSlash
          exact splitFirstSlash_prefix_no_slash p.1.data q.1 q.2 hq
      · exact Or.inl
    · exact Or.inr h2

/-- A fold over slash-free entries is the identity. -/
theorem consolidate_foldl_id (l : List (String × List TestEvent)) :
    ∀ acc, (∀ p ∈ l, hasSlash p.1 = false) → l.foldl consolidateStep acc = acc := by
  induction l with
  | nil => intro acc _; rfl
  | cons p rest ih =>
    intro acc hall
    simp only [List.foldl_cons]
    have hstep : consolidateStep acc p = acc := by
      unfold consolidateStep
      cases hq : splitFirstSlash p.1.data with
      | none => rfl
      | some r =>
        have := hall p (by simp)
        unfold hasSlash at this
        rw [← splitFirstSlash_none_iff] at this
        rw [hq] at this
        cases this
    rw [hstep]
    exact ih acc (fun q hq => hall q (by simp [hq]))

/-- C9: after one consolidation pass every key of `failures` is slash-free,
and a second pass leaves the mapping unchanged. -/
theorem c9_consolidate_idempotent (m : EventMap) (a : String)
    (ha : a ∈ (consolidate m).map Prod.fst) :
    hasSlash a = false ∧ consolidate (consolidate m) = consolidate m := by
  have hkeys : ∀ b ∈ (consolidate m).map Prod.fst, hasSlash b = false := by
    intro b hb
    rcases mem_keys_consolidate_foldl m m b hb with h2 | h2
    · by_cases hsl : hasSlash b = true
      · obtain ⟨p, hp, hpb⟩ := List.mem_map.mp h2
        exact absurd hb (by
          subst hpb
          exact consolidate_foldl_erases_slash m m p hp hsl)
      · simpa using hsl
    · exact h2
  refine ⟨hkeys a ha, ?_⟩
  unfold consolidate
  exact consolidate_foldl_id (consolidate m) (consolidate m)
    (fun p hp => hkeys p.1 (List.mem_map.mpr ⟨p, hp, rfl⟩))

/-- C9 (witness): the consolidated map `{A/b ↦ [e]}` has the single
slash-free key `A`, and re-consolidating it changes nothing. -/
theorem c9_witness :
    hasSlash "A" = false ∧
    consolidate (consolidate [("A/b", [defaultTestEvent])])
      = consolidate [("A/b", [defaultTestEvent])] :=
  c9_consolidate_idempotent [("A/b", [defaultTestEvent])] "A" (by decide)

/-! ### Claim C10 -/

theorem mem_insertDesc (te : TestEvent) (l : List TestEvent) (b : TestEvent)
    (h : b ∈ insertDesc te l) : b = te ∨ b ∈ l := by
  induction l with
  | nil => simpa [insertDesc] using h
  | cons x xs ih =>
    unfold insertDesc at h
    split at h
    · rcases List.mem_cons.mp h with rfl | h2
      · exact Or.inl rfl
      · exact Or.inr h2
    · rcases List.mem_cons.mp h with rfl | h2
      · exact Or.inr (by simp)
      · rcases ih h2 with h3 | h3
        · exact Or.inl h3
        · exact Or.inr (by simp [h3])

theorem sorted_insertDesc (te : TestEvent) (l : List TestEvent)
    (h : l.Sorted (fun a b => b.Elapsed ≤ a.Elapsed)) :
    (insertDesc te l).Sorted (fun a b => b.Elapsed ≤ a.Elapsed) := by
  induction l with
  | nil => simp [insertDesc]
  | cons x xs ih =>
    rw [List.sorted_cons] at h
    unfold insertDesc
    split
    · rename_i hgt
      rw [List.sorted_cons]
      refine ⟨?_, by rw [List.sorted_cons]; exact h⟩
      intro b hb
      rcases List.mem_cons.mp hb with rfl | hb2
      · exact le_of_lt hgt
      · exact le_trans (h.1 b hb2) (le_of_lt hgt)
    · rename_i hle
      rw [List.sorted_cons]
      refine ⟨?_, ih h.2⟩
      intro b hb
      rcases mem_insertDesc te xs b hb with rfl | hb2
      · exact le_of_not_lt hle
      · exact h.1 b hb2

theorem sorted_sortSlowDesc (l : List TestEvent) :
    (sortSlowDesc l).Sorted (fun a b => b.Elapsed ≤ a.Elapsed) := by
  unfold sortSlowDesc
  induction l with
  | nil => simp
  | cons x xs ih => exact sorted_insertDesc x _ ih

theorem insertDesc_perm (te : TestEvent) (l : List TestEvent) :
    List.Perm (insertDesc te l) (te :: l) := by
  induction l with
  | nil => rfl
  | cons x xs ih =>
    unfold insertDesc
    split
    · rfl
    · exact List.Perm.trans (List.Perm.cons x ih) (List.Perm.swap te x xs)

theorem sortSlowDesc_perm (l : List TestEvent) : List.Perm (sortSlowDesc l) l := by
  unfold sortSlowDesc
  induction l with
  | nil => rfl
  | cons x xs ih =>
    exact List.Perm.trans (insertDesc_perm x (xs.foldr insertDesc [])) (List.Perm.cons x ih)

theorem slowLines_eq (l : List TestEvent) :
    ∀ i, i ≤ 20 → slowLines i l = ((l.take (20 - i)).map slowLine).foldr (· ++ ·) "" := by
  induction l with
  | nil => intro i _; simp [slowLines]
  | cons te rest ih =>
    intro i hi
    unfold slowLines
    by_cases h20 : i = 20
    · subst h20
      simp
    · rw [if_neg h20, ih (i + 1) (by omega)]
      have h21 : 20 - i = (20 - (i + 1)) + 1 := by omega
      rw [h21, List.take_succ_cons]
      rfl

/-- C10: the slow-test report is the "Slow failing tests" section followed by
the "Slow passing tests" section, each rendering at most the first 20 entries
of its sorted list as `<name> - <elapsed>.2fs` lines with the `<none>`
placeholder exactly for an empty list; both lists are sorted descending by
`elapsed` and are permutations of the collected entries. -/
theorem c10_slow_report (slowPassingTests slowFailingTests : List TestEvent) :
    genSlowTestsReport (sortSlowDesc slowPassingTests) (sortSlowDesc slowFailingTests) =
      "Slow failing tests:\n"
        ++ (((sortSlowDesc slowFailingTests).take 20).map slowLine).foldr (· ++ ·) ""
        ++ (if sortSlowDesc slowFailingTests = [] then "<none>\n" else "")
        ++ "\nSlow passing tests:\n"
        ++ (((sortSlowDesc slowPassingTests).take 20).map slowLine).foldr (· ++ ·) ""
        ++ (if sortSlowDesc slowPassingTests = [] then "<none>\n" else "")
    ∧ (sortSlowDesc slowFailingTests).Sorted (fun a b => b.Elapsed ≤ a.Elapsed)
    ∧ (sortSlowDesc slowPassingTests).Sorted (fun a b => b.Elapsed ≤ a.Elapsed)
    ∧ List.Perm (sortSlowDesc slowFailingTests) slowFailingTests
    ∧ List.Perm (sortSlowDesc slowPassingTests) slowPassingTests := by
  refine ⟨?_, sorted_sortSlowDesc _, sorted_sortSlowDesc _,
    sortSlowDesc_perm _, sortSlowDesc_perm _⟩
  have hnil : ∀ l : List TestEvent, (sortSlowDesc l = []) = (l = []) := fun l =>
    propext (by rw [← List.length_eq_zero, ← List.length_eq_zero (l := l), sortSlowDesc_length])
  unfold genSlowTestsReport
  rw [slowLines_eq _ 0 (by omega), slowLines_eq _ 0 (by omega)]
  norm_num [List.length_eq_zero, hnil]

/-- C3 (amended): every entry of the passing slow-test list is a `pass` or
`skip` event of a top-level test with `elapsed` above the 0.5s threshold; the
failing slow-test list instead admits `fail` events with no threshold check
(plus the synthesized timed-out marker event), so a top-level `fail` event
with `elapsed` at or below 0.5s does land in it. -/
theorem c3_slow_entries (events : List TestEvent) (s : RunState)
    (hs : processEvents events initialState = .ok s) :
    (∀ e ∈ (endOfStream s).slowPassingTests, e.Elapsed > shortTestFilterSecs ∧
      hasSlash e.Test = false ∧ (e.Action = "pass" ∨ e.Action = "skip"))
    ∧ (∀ e ∈ (endOfStream s).slowFailingTests, e.Action = "fail" ∨
      strContains e.Output timeoutMsg = true) := by
  obtain ⟨hp, hf, hto⟩ := processEvents_slow_inv events initialState s hs
    (by intro e he; cases he) (by intro e he; cases he) (by intro hne; exact absurd rfl hne)
  unfold endOfStream
  split_ifs with h1 h2 h3
  · refine ⟨by simpa using hp, ?_⟩
    intro e he
    simp only [List.mem_append, List.mem_singleton] at he
    cases he with
    | inl hmem => exact hf e hmem
    | inr hnew => subst hnew; exact Or.inr (hto h1)
  · exact ⟨hp, hf⟩
  · exact ⟨by simpa using hp, by simpa using hf⟩
  · exact ⟨hp, hf⟩

section
attribute [local semireducible] Rat.add Rat.sub Rat.mul Rat.inv Rat.ofScientific

/-- C3 (counterexample): a top-level `fail` event with `elapsed` 0.1s — at or
below the 0.5s threshold — is added to the failing slow-test list. -/
theorem c3_counterexample :
    (processEvents [⟨"fail", "A", "", 0, mkRat 1 10⟩] initialState).map
      (fun s => s.slowFailingTests.map (·.Elapsed)) = .ok [mkRat 1 10]
    ∧ decide (mkRat 1 10 ≤ shortTestFilterSecs) = true
    ∧ hasSlash "A" = false :=
  ⟨by decide, by decide, by decide⟩

/-- C3 (witness): the amended claim at the concrete one-event stream
`fail A (0.1s)`. -/
theorem c3_witness :
    (∀ e ∈ (endOfStream ⟨[], [("A", [])], [], [⟨"fail", "A", "", 0, mkRat 1 10⟩], "",
        false, true, mkRat 1 10, "", defaultTestEvent, 0, "",
        ⟨"fail", "A", "", 0, mkRat 1 10⟩⟩).slowPassingTests,
      e.Elapsed > shortTestFilterSecs ∧ hasSlash e.Test = false ∧
        (e.Action = "pass" ∨ e.Action = "skip"))
    ∧ (∀ e ∈ (endOfStream ⟨[], [("A", [])], [], [⟨"fail", "A", "", 0, mkRat 1 10⟩], "",
        false, true, mkRat 1 10, "", defaultTestEvent, 0, "",
        ⟨"fail", "A", "", 0, mkRat 1 10⟩⟩).slowFailingTests,
      e.Action = "fail" ∨ strContains e.Output timeoutMsg = true) :=
  c3_slow_entries [⟨"fail", "A", "", 0, mkRat 1 10⟩] _ (by decide)

end

section
attribute [local semireducible] Rat.add Rat.sub Rat.mul Rat.inv Rat.ofScientific

/-- C2 (counterexample): after a first timeout marker for test `A`, a second
marker event for test `B` overwrites the recorded timeout: the final
`timedOutTestName` is `B`, not the first-recorded `A`. -/
theorem c2_counterexample :
    (processEvents [⟨"output", "A", "panic: test timed out after 1s", 0, 0⟩]
        initialState).map (·.timedOutTestName) = .ok "A"
    ∧ (processEvents [⟨"output", "A", "panic: test timed out after 1s", 0, 0⟩,
        ⟨"output", "B", "panic: test timed out after 1s", 0, 0⟩]
        initialState).map (·.timedOutTestName) = .ok "B"
    ∧ ("B" == "A") = false :=
  ⟨by decide, by decide, by decide⟩

/-- C2 (witness): the amended claim at a concrete marker event. -/
theorem c2_witness :
    ∃ s2, processEvent initialState
      ⟨"output", "A", "panic: test timed out after 1s", 0, 0⟩ = .ok s2 ∧
      s2.timedOutTestName = "A" := by
  cases heq : processEvent initialState
      ⟨"output", "A", "panic: test timed out after 1s", 0, 0⟩ with
  | error e => cases e <;> exact absurd heq (by decide)
  | ok s2 =>
    exact ⟨s2, rfl,
      (c2_last_timeout_wins initialState _ s2 (by decide) rfl (by decide) heq).1⟩

end

end GithubPost
